import Mathlib

/-!
Verification of the sync engine of claude-local-history-sync.

The repository's sync engine (src/src/core/storage-manager.ts), watcher
(src/src/core/watcher.ts), path utilities (src/unnamed/part_004) and daemon
(src/unnamed/part_008) are shallowly embedded below.  Directories are
association lists from file names to modification times; Node's `copyFile`
gives the destination a fresh modification time, modelled by the pass-wide
clock `now`.  Fallible operations carry explicit failure-injection lists:
a file name in `copyFails` makes its `copyFile` throw, a name in a stat-fail
list makes `stat` throw; both are caught by the code exactly where the
source catches them.  Error lists record one entry per caught per-file
error (the failing file's name stands for the Error object's message).
-/

namespace ClaudeSync

/-- A directory: file names with their modification times, in listing order. -/
abbrev Dir := List (String × Int)

/-- Lookup of a file's modification time in a directory. -/
def lookupD : Dir → String → Option Int
  | [], _ => none
  | (k, v) :: rest, n => if k = n then some v else lookupD rest n

/-- The file names of a directory, in listing order. -/
def keys (d : Dir) : List String := d.map Prod.fst

/-- Write a file: overwrite the existing entry or append a new one.
This is the effect of a completed `copyFile` into the directory, the new
modification time being the time of the copy. -/
def setFile : Dir → String → Int → Dir
  | [], n, t => [(n, t)]
  | (k, v) :: rest, n, t =>
    if k = n then (n, t) :: rest else (k, v) :: setFile rest n t

/-- Embeds the extension filter of `StorageManager.getConversationFiles`:
a conversation file ends in .json or .jsonl (endsWith is rendered as a
character-list suffix test). -/
def isConvFile (n : String) : Bool :=
  List.isSuffixOf (String.toList ".json") (String.toList n) ||
    List.isSuffixOf (String.toList ".jsonl") (String.toList n)

/-- Embeds `StorageManager.getConversationFiles`: the names of the
conversation files of a directory, in listing order. -/
def getConversationFiles (d : Dir) : List String :=
  (keys d).filter (fun n => isConvFile n)

/-- Embeds `pathExists` (src/unnamed/part_004): `access` succeeds exactly on
present files; any error is caught and reported as absence. -/
def pathExistsD (d : Dir) (n : String) : Bool := (lookupD d n).isSome

/-- Embeds `stat` on a file of a directory with failure injection: a name in
`fails` makes `stat` throw (`none`), as does statting an absent file. -/
def statM (d : Dir) (fails : List String) (n : String) : Option Int :=
  if n ∈ fails then none else lookupD d n

/-- Embeds `StorageManager.shouldCopyFile`: copy when the destination is
absent; otherwise stat source then destination and copy when the source's
modification time is strictly greater; any thrown error is caught and
answered with `true`. -/
def shouldCopyFile (src dst : Dir) (srcFails dstFails : List String)
    (n : String) : Bool :=
  if !(pathExistsD dst n) then true
  else
    match statM src srcFails n with
    | none => true
    | some s =>
      match statM dst dstFails n with
      | none => true
      | some d => decide (d < s)

/-- Outcome of one copy loop: the updated destination directory, the names
copied (in order) and the names whose copy threw (in order). -/
structure PassResult where
  dest : Dir
  copied : List String
  errs : List String
deriving DecidableEq

/-- Embeds the freshness-gated copy loops of `StorageManager.syncToLocal`
(both the global-to-local loop and the bidirectional local-to-global loop):
for each file, consult `shouldCopyFile`; on a positive answer attempt the
copy, recording a success or a caught error; otherwise skip. -/
def copyPass (src : Dir) (srcFails dstFails copyFails : List String)
    (now : Int) : List String → Dir → PassResult
  | [], dest => ⟨dest, [], []⟩
  | f :: rest, dest =>
    if shouldCopyFile src dest srcFails dstFails f then
      if f ∈ copyFails then
        let r := copyPass src srcFails dstFails copyFails now rest dest
        ⟨r.dest, r.copied, f :: r.errs⟩
      else
        let r := copyPass src srcFails dstFails copyFails now rest
          (setFile dest f now)
        ⟨r.dest, f :: r.copied, r.errs⟩
    else
      copyPass src srcFails dstFails copyFails now rest dest

/-- Embeds the unconditional copy loop of `StorageManager.syncToGlobal`:
every file is copied with no freshness check; per-file errors are caught. -/
def copyAllPass (copyFails : List String) (now : Int) :
    List String → Dir → PassResult
  | [], dest => ⟨dest, [], []⟩
  | f :: rest, dest =>
    if f ∈ copyFails then
      let r := copyAllPass copyFails now rest dest
      ⟨r.dest, r.copied, f :: r.errs⟩
    else
      let r := copyAllPass copyFails now rest (setFile dest f now)
      ⟨r.dest, f :: r.copied, r.errs⟩

/-- Embeds the `SyncResult` type (success flag, count of files copied,
error list, elapsed duration; duration is 0 in this timeless model). -/
structure SyncResult where
  success : Bool
  filesProcessed : Nat
  errors : List String
  duration : Nat
deriving DecidableEq

/-- The filesystem state one `StorageManager` call sees: the wall clock, the
project's encoded global directory and local history directory (`none` when
the directory is absent), and the injected failure sets for stats and copies
in each direction. -/
structure World where
  now : Int
  globalDir : Option Dir
  localDir : Option Dir
  statFailsGlobal : List String
  statFailsLocal : List String
  copyToLocalFails : List String
  copyToGlobalFails : List String
deriving DecidableEq

/-- Embeds `StorageManager.syncToLocal`: lazily initialize the local store,
return success with zero files when the global project directory is absent,
run the freshness-gated global-to-local loop, and when `bidirectional` also
run the local-to-global loop over the just-updated local listing; success
holds iff the error list is empty. -/
def syncToLocal (w : World) (bidirectional : Bool) : SyncResult × World :=
  let localInit : Dir :=
    match w.localDir with
    | some l => l
    | none => []
  match w.globalDir with
  | none =>
    ({ success := true, filesProcessed := 0, errors := [], duration := 0 },
     { w with localDir := some localInit })
  | some g =>
    let files := getConversationFiles g
    let r1 := copyPass g w.statFailsGlobal w.statFailsLocal
      w.copyToLocalFails w.now files localInit
    if bidirectional then
      let localFiles := getConversationFiles r1.dest
      let r2 := copyPass r1.dest w.statFailsLocal w.statFailsGlobal
        w.copyToGlobalFails w.now localFiles g
      ({ success := (r1.errs ++ r2.errs).isEmpty,
         filesProcessed := r1.copied.length + r2.copied.length,
         errors := r1.errs ++ r2.errs, duration := 0 },
       { w with localDir := some r1.dest, globalDir := some r2.dest })
    else
      ({ success := r1.errs.isEmpty, filesProcessed := r1.copied.length,
         errors := r1.errs, duration := 0 },
       { w with localDir := some r1.dest })

/-- Embeds `StorageManager.syncToGlobal`: fail fast with the single error
message when the local history directory is absent; otherwise create the
global directory if needed and copy every local conversation file with no
freshness check. -/
def syncToGlobal (w : World) : SyncResult × World :=
  match w.localDir with
  | none =>
    ({ success := false, filesProcessed := 0,
       errors := ["Local storage not initialized"], duration := 0 }, w)
  | some l =>
    let g0 : Dir :=
      match w.globalDir with
      | some g => g
      | none => []
    let files := getConversationFiles l
    let r := copyAllPass w.copyToGlobalFails w.now files g0
    ({ success := r.errs.isEmpty, filesProcessed := r.copied.length,
       errors := r.errs, duration := 0 },
     { w with globalDir := some r.dest })

/-- The local store of a project (the .claude directory): whether the
directory is present, the history subdirectory (`none` when absent), and the
files directly in the store other than history (README.md, config.json). -/
structure LocalStore where
  present : Bool
  history : Option Dir
  others : List (String × Int)
deriving DecidableEq

/-- Embeds `StorageManager.cleanLocalStorage`: remove the history
subdirectory recursively when it exists; then, unless `preserveConfig` is
set, remove the whole local store directory when it exists. -/
def cleanLocalStorage (s : LocalStore) (preserveConfig : Bool) : LocalStore :=
  let s1 := if s.history.isSome then { s with history := none } else s
  if !preserveConfig && s1.present then ⟨false, none, []⟩ else s1

/-- Embeds `encodeProjectPath` (src/unnamed/part_004): the regex
`replace(/\x2f/g, '-')` replaces every path separator with a dash
(rendered character by character). -/
def encodeProjectPath (projectPath : String) : String :=
  String.mk (projectPath.toList.map (fun c => if c = '/' then '-' else c))

/-- Embeds Node's `path.join` on a root and one plain segment. -/
def pathJoin (a b : String) : String := a ++ "/" ++ b

/-- Embeds `getGlobalProjectPath` (src/unnamed/part_004): the encoded
project path nested under the `projects` subdirectory of the global root. -/
def getGlobalProjectPath (globalStoragePath projectRoot : String) : String :=
  pathJoin (pathJoin globalStoragePath "projects") (encodeProjectPath projectRoot)

/-- The event kinds of `HistoryWatcher` (src/src/core/watcher.ts). -/
inductive WEventType
  | add
  | change
  | unlink
deriving DecidableEq

/-- Embeds the `WatcherEvent` record: type, path, timestamp. -/
structure WatcherEvent where
  type : WEventType
  path : String
  timestamp : Int
deriving DecidableEq

/-- Embeds `HistoryWatcher.handleFileEvent` (global-side events), observed
through its notifications and copy decision: the event is delivered to every
registered callback (callbacks are identified by number); then, for add and
change events whose file belongs to the project, the file is copied into
local history.  Errors are caught and logged. -/
def handleFileEvent (callbacks : List Nat) (belongs : Bool)
    (t : WEventType) (path : String) (ts : Int) :
    List (Nat × WatcherEvent) × Bool :=
  let ev : WatcherEvent := ⟨t, path, ts⟩
  (callbacks.map (fun c => (c, ev)),
   (t = WEventType.add || t = WEventType.change) && belongs)

/-- Embeds `HistoryWatcher.handleLocalFileEvent` (local-side events in
bidirectional mode): no callback is notified; add and change events copy the
file to the global side with no membership check.  Errors are caught. -/
def handleLocalFileEvent (callbacks : List Nat)
    (t : WEventType) (path : String) (ts : Int) :
    List (Nat × WatcherEvent) × Bool :=
  ([], (t = WEventType.add || t = WEventType.change))

/-- The sync directions of `SyncDaemon.syncProject`. -/
inductive SyncDirection
  | toLocal
  | toGlobal
  | bidirectional
deriving DecidableEq

/-- The storage-manager call `SyncDaemon.syncProject` makes for each
direction, acting on the filesystem world. -/
def runDirection (w : World) (dir : SyncDirection) : World :=
  match dir with
  | SyncDirection.toLocal => (syncToLocal w false).2
  | SyncDirection.toGlobal => (syncToGlobal w).2
  | SyncDirection.bidirectional => (syncToLocal w true).2

/-- Embeds `SyncDaemon.syncProject`.  The daemon's monitored-project table
maps a project root to its `lastSync` timestamp (the watcher handle is not
modelled).  A root not in the table returns at once; a trigger less than
5000 ms after `lastSync` is dropped; otherwise the storage-manager sync runs
and `lastSync` is updated.  The Boolean reports whether a sync pass ran. -/
def syncProject (table : Dir) (w : World) (root : String)
    (dir : SyncDirection) (now : Int) : Dir × World × Bool :=
  match lookupD table root with
  | none => (table, w, false)
  | some lastSync =>
    if now - lastSync < 5000 then (table, w, false)
    else (setFile table root now, runDirection w dir, true)

/-- Embeds `SyncDaemon.monitorProject`: return at once when the root is
already monitored; otherwise attempt the initial bidirectional sync via
`syncProject` (the caught failure is only logged), then register the project
with `lastSync` set to the current time.  The Boolean reports whether the
initial sync pass ran. -/
def monitorProject (table : Dir) (w : World) (root : String) (now : Int) :
    Dir × World × Bool :=
  if (lookupD table root).isSome then (table, w, false)
  else
    let r := syncProject table w root SyncDirection.bidirectional now
    (setFile r.1 root now, r.2.1, r.2.2)

/-- Runs a sequence of timed sync triggers (any direction) against the
daemon state, counting the completed sync passes. -/
def runTriggers (root : String) :
    Dir → World → List (Int × SyncDirection) → Dir × World × Nat
  | table, w, [] => (table, w, 0)
  | table, w, (t, d) :: rest =>
    let r := syncProject table w root d t
    let q := runTriggers root r.1 r.2.1 rest
    (q.1, q.2.1, (if r.2.2 then 1 else 0) + q.2.2)

/-! Helper lemmas about directories. -/

theorem lookupD_setFile_self (d : Dir) (n : String) (t : Int) :
    lookupD (setFile d n t) n = some t := by
  induction d with
  | nil => simp [setFile, lookupD]
  | cons p rest ih =>
    obtain ⟨k, v⟩ := p
    by_cases h : k = n
    · simp [setFile, h, lookupD]
    · simp [setFile, h, lookupD, ih]

theorem lookupD_setFile_ne (d : Dir) (n m : String) (t : Int) (h : m ≠ n) :
    lookupD (setFile d n t) m = lookupD d m := by
  have h1 : ¬ (n = m) := fun hh => h hh.symm
  induction d with
  | nil => simp [setFile, lookupD, h1]
  | cons p rest ih =>
    obtain ⟨k, v⟩ := p
    by_cases hk : k = n
    · subst hk
      simp [setFile, lookupD, h1]
    · simp [setFile, hk, lookupD, ih]

theorem lookupD_isSome_of_mem_keys (d : Dir) (n : String)
    (h : n ∈ keys d) : (lookupD d n).isSome := by
  induction d with
  | nil => simp [keys] at h
  | cons p rest ih =>
    obtain ⟨k, v⟩ := p
    by_cases hk : k = n
    · simp [lookupD, hk]
    · simp [keys] at h
      rcases h with h | h
      · exact absurd h.symm hk
      · simpa [lookupD, hk] using ih (by simpa [keys] using h)

theorem mem_of_lookupD_eq_some (d : Dir) (n : String) (v : Int)
    (h : lookupD d n = some v) : (n, v) ∈ d := by
  induction d with
  | nil => simp [lookupD] at h
  | cons p rest ih =>
    obtain ⟨k, w⟩ := p
    by_cases hk : k = n
    · subst hk
      simp [lookupD] at h
      simp [h]
    · simp [lookupD, hk] at h
      simp [ih h]

/-- `shouldCopyFile` inspects the destination only through the lookup of the
file at hand. -/
theorem shouldCopyFile_congr (src d1 d2 : Dir) (sf df : List String)
    (f : String) (h : lookupD d1 f = lookupD d2 f) :
    shouldCopyFile src d1 sf df f = shouldCopyFile src d2 sf df f := by
  simp [shouldCopyFile, pathExistsD, statM, h]

/-- With no stat failure injected, `shouldCopyFile` is the plain
freshness comparison. -/
theorem shouldCopyFile_noFails (src dst : Dir) (f : String) :
    shouldCopyFile src dst [] [] f =
      match lookupD dst f, lookupD src f with
      | none, _ => true
      | some _, none => true
      | some d, some s => decide (d < s) := by
  simp only [shouldCopyFile, pathExistsD, statM, List.not_mem_nil,
    if_false, if_neg]
  cases hd : lookupD dst f <;> cases hs : lookupD src f <;> simp

/-! Helper lemmas about the freshness-gated copy loop. -/

theorem copyPass_copied_subset (src : Dir) (sf df cf : List String)
    (now : Int) :
    ∀ (files : List String) (dest : Dir) (f : String),
      f ∈ (copyPass src sf df cf now files dest).copied → f ∈ files := by
  intro files
  induction files with
  | nil => intro dest f h; simp [copyPass] at h
  | cons g rest ih =>
    intro dest f h
    simp only [copyPass] at h
    by_cases hsc : shouldCopyFile src dest sf df g
    · rw [if_pos hsc] at h
      by_cases hcf : g ∈ cf
      · rw [if_pos hcf] at h
        exact List.mem_cons_of_mem _ (ih _ _ h)
      · rw [if_neg hcf] at h
        simp only [List.mem_cons] at h
        rcases h with h | h
        · simp [h]
        · exact List.mem_cons_of_mem _ (ih _ _ h)
    · rw [if_neg hsc] at h
      exact List.mem_cons_of_mem _ (ih _ _ h)

theorem copyPass_errs_subset (src : Dir) (sf df cf : List String)
    (now : Int) :
    ∀ (files : List String) (dest : Dir) (f : String),
      f ∈ (copyPass src sf df cf now files dest).errs → f ∈ files := by
  intro files
  induction files with
  | nil => intro dest f h; simp [copyPass] at h
  | cons g rest ih =>
    intro dest f h
    simp only [copyPass] at h
    by_cases hsc : shouldCopyFile src dest sf df g
    · rw [if_pos hsc] at h
      by_cases hcf : g ∈ cf
      · rw [if_pos hcf] at h
        simp only [List.mem_cons] at h
        rcases h with h | h
        · simp [h]
        · exact List.mem_cons_of_mem _ (ih _ _ h)
      · rw [if_neg hcf] at h
        exact List.mem_cons_of_mem _ (ih _ _ h)
    · rw [if_neg hsc] at h
      exact List.mem_cons_of_mem _ (ih _ _ h)

/-- The copy loop leaves files outside its worklist untouched. -/
theorem copyPass_frame (src : Dir) (sf df cf : List String) (now : Int) :
    ∀ (files : List String) (dest : Dir) (f : String), f ∉ files →
      lookupD (copyPass src sf df cf now files dest).dest f =
        lookupD dest f := by
  intro files
  induction files with
  | nil => intro dest f _; simp [copyPass]
  | cons g rest ih =>
    intro dest f h
    have hg : f ≠ g := fun hh => h (by simp [hh])
    have hr : f ∉ rest := fun hh => h (List.mem_cons_of_mem _ hh)
    simp only [copyPass]
    by_cases hsc : shouldCopyFile src dest sf df g
    · rw [if_pos hsc]
      by_cases hcf : g ∈ cf
      · rw [if_pos hcf]
        exact ih dest f hr
      · rw [if_neg hcf]
        rw [ih (setFile dest g now) f hr]
        exact lookupD_setFile_ne dest g f now hg
    · rw [if_neg hsc]
      exact ih dest f hr

/-- Membership in the copied and error lists of the copy loop, for a
duplicate-free worklist: a file is copied iff the freshness check against
the loop's initial destination passes and its copy does not throw, and it is
recorded as an error iff the check passes and its copy throws. -/
theorem copyPass_mem_spec (src : Dir) (sf df cf : List String) (now : Int) :
    ∀ (files : List String) (dest : Dir), files.Nodup →
      ∀ f ∈ files,
        (f ∈ (copyPass src sf df cf now files dest).copied ↔
          (shouldCopyFile src dest sf df f = true ∧ f ∉ cf)) ∧
        (f ∈ (copyPass src sf df cf now files dest).errs ↔
          (shouldCopyFile src dest sf df f = true ∧ f ∈ cf)) := by
  intro files
  induction files with
  | nil => intro dest _ f hf; simp at hf
  | cons g rest ih =>
    intro dest hnd f hf
    have hgrest : g ∉ rest := by
      simp [List.nodup_cons] at hnd
      exact hnd.1
    have hndrest : rest.Nodup := by
      simp [List.nodup_cons] at hnd
      exact hnd.2
    simp only [copyPass]
    rcases List.mem_cons.mp hf with hfg | hfr
    · subst hfg
      by_cases hsc : shouldCopyFile src dest sf df f
      · rw [if_pos hsc]
        by_cases hcf : f ∈ cf
        · rw [if_pos hcf]
          constructor
          · constructor
            · intro h
              exact absurd (copyPass_copied_subset src sf df cf now rest dest f h) hgrest
            · intro h
              exact absurd h.2 (by simp [hcf])
          · simp [hsc, hcf]
        · rw [if_neg hcf]
          constructor
          · simp [hsc, hcf]
          · constructor
            · intro h
              exact absurd (copyPass_errs_subset src sf df cf now rest (setFile dest f now) f h) hgrest
            · intro h
              exact absurd h.2 hcf
      · rw [if_neg hsc]
        constructor
        · constructor
          · intro h
            exact absurd (copyPass_copied_subset src sf df cf now rest dest f h) hgrest
          · intro h
            exact absurd h.1 (by simpa using hsc)
        · constructor
          · intro h
            exact absurd (copyPass_errs_subset src sf df cf now rest dest f h) hgrest
          · intro h
            exact absurd h.1 (by simpa using hsc)
    · have hfg : f ≠ g := fun hh => hgrest (hh ▸ hfr)
      by_cases hsc : shouldCopyFile src dest sf df g
      · rw [if_pos hsc]
        by_cases hcf : g ∈ cf
        · rw [if_pos hcf]
          have := ih dest hndrest f hfr
          constructor
          · exact this.1
          · constructor
            · intro h
              simp only [List.mem_cons] at h
              rcases h with h | h
              · exact absurd h hfg
              · exact this.2.mp h
            · intro h
              exact List.mem_cons_of_mem _ (this.2.mpr h)
        · rw [if_neg hcf]
          have hlook : lookupD (setFile dest g now) f = lookupD dest f :=
            lookupD_setFile_ne dest g f now hfg
          have hcongr := shouldCopyFile_congr src (setFile dest g now) dest sf df f hlook
          have := ih (setFile dest g now) hndrest f hfr
          constructor
          · constructor
            · intro h
              simp only [List.mem_cons] at h
              rcases h with h | h
              · exact absurd h hfg
              · have := this.1.mp h
                exact ⟨hcongr ▸ this.1, this.2⟩
            · intro h
              exact List.mem_cons_of_mem _ (this.1.mpr ⟨hcongr.symm ▸ h.1, h.2⟩)
          · constructor
            · intro h
              have := this.2.mp h
              exact ⟨hcongr ▸ this.1, this.2⟩
            · intro h
              exact this.2.mpr ⟨hcongr.symm ▸ h.1, h.2⟩
      · rw [if_neg hsc]
        exact ih dest hndrest f hfr

/-- After a failure-free copy loop the destination holds, for every file of
the worklist present in the source with a modification time at most `now`, a
version at least as fresh as the source's. -/
theorem copyPass_lookup_ge (src : Dir) (now : Int) :
    ∀ (files : List String) (dest : Dir), files.Nodup →
      ∀ f ∈ files, ∀ s : Int, lookupD src f = some s → s ≤ now →
        ∃ m : Int,
          lookupD (copyPass src [] [] [] now files dest).dest f = some m ∧
            s ≤ m := by
  intro files
  induction files with
  | nil => intro dest _ f hf; simp at hf
  | cons g rest ih =>
    intro dest hnd f hf s hs hsnow
    have hgrest : g ∉ rest := (List.nodup_cons.mp hnd).1
    have hndrest : rest.Nodup := (List.nodup_cons.mp hnd).2
    simp only [copyPass, List.not_mem_nil, if_neg, if_false]
    rcases List.mem_cons.mp hf with hfg | hfr
    · subst hfg
      by_cases hsc : shouldCopyFile src dest [] [] f
      · rw [if_pos hsc]
        simp only [List.not_mem_nil, if_false]
        refine ⟨now, ?_, hsnow⟩
        rw [copyPass_frame src [] [] [] now rest (setFile dest f now) f hgrest]
        exact lookupD_setFile_self dest f now
      · rw [if_neg hsc]
        rw [shouldCopyFile_noFails] at hsc
        cases hd : lookupD dest f with
        | none => rw [hd] at hsc; simp at hsc
        | some d =>
          rw [hd, hs] at hsc
          simp only [decide_eq_true_eq] at hsc
          have hds : s ≤ d := le_of_not_lt (by simpa using hsc)
          refine ⟨d, ?_, hds⟩
          rw [copyPass_frame src [] [] [] now rest dest f hgrest]
          exact hd
    · by_cases hsc : shouldCopyFile src dest [] [] g
      · rw [if_pos hsc]
        simp only [List.not_mem_nil, if_false]
        exact ih (setFile dest g now) hndrest f hfr s hs hsnow
      · rw [if_neg hsc]
        exact ih dest hndrest f hfr s hs hsnow

/-- A copy loop none of whose files pass the freshness check does nothing. -/
theorem copyPass_no_copy (src : Dir) (sf df cf : List String) (now : Int) :
    ∀ (files : List String) (dest : Dir),
      (∀ f ∈ files, shouldCopyFile src dest sf df f = false) →
      copyPass src sf df cf now files dest = ⟨dest, [], []⟩ := by
  intro files
  induction files with
  | nil => intro dest _; simp [copyPass]
  | cons g rest ih =>
    intro dest h
    have hg : shouldCopyFile src dest sf df g = false := h g (by simp)
    simp only [copyPass, hg, Bool.false_eq_true, if_false]
    exact ih dest (fun f hf => h f (List.mem_cons_of_mem _ hf))

/-- A duplicate-free copy loop into a destination missing all its files
copies exactly the files whose copy does not throw and records exactly the
files whose copy throws, in worklist order. -/
theorem copyPass_all_absent (src : Dir) (sf df cf : List String)
    (now : Int) :
    ∀ (files : List String) (dest : Dir), files.Nodup →
      (∀ f ∈ files, lookupD dest f = none) →
      (copyPass src sf df cf now files dest).copied =
          files.filter (fun f => !decide (f ∈ cf)) ∧
        (copyPass src sf df cf now files dest).errs =
          files.filter (fun f => decide (f ∈ cf)) := by
  intro files
  induction files with
  | nil => intro dest _ _; simp [copyPass]
  | cons g rest ih =>
    intro dest hnd habs
    have hgrest : g ∉ rest := (List.nodup_cons.mp hnd).1
    have hndrest : rest.Nodup := (List.nodup_cons.mp hnd).2
    have hgabs : lookupD dest g = none := habs g (by simp)
    have hsc : shouldCopyFile src dest sf df g = true := by
      simp [shouldCopyFile, pathExistsD, hgabs]
    simp only [copyPass, hsc, if_true]
    by_cases hcf : g ∈ cf
    · rw [if_pos hcf]
      have := ih dest hndrest (fun f hf => habs f (List.mem_cons_of_mem _ hf))
      simp [List.filter, hcf, this.1, this.2]
    · rw [if_neg hcf]
      have habs2 : ∀ f ∈ rest, lookupD (setFile dest g now) f = none := by
        intro f hf
        have hfg : f ≠ g := fun hh => hgrest (hh ▸ hf)
        rw [lookupD_setFile_ne dest g f now hfg]
        exact habs f (List.mem_cons_of_mem _ hf)
      have := ih (setFile dest g now) hndrest habs2
      simp [List.filter, hcf, this.1, this.2]

/-- The unconditional copy loop of `syncToGlobal` copies exactly the files
whose copy does not throw and records exactly the files whose copy
throws, in worklist order. -/
theorem copyAllPass_spec (cf : List String) (now : Int) :
    ∀ (files : List String) (dest : Dir),
      (copyAllPass cf now files dest).copied =
          files.filter (fun f => !decide (f ∈ cf)) ∧
        (copyAllPass cf now files dest).errs =
          files.filter (fun f => decide (f ∈ cf)) := by
  intro files
  induction files with
  | nil => intro dest; simp [copyAllPass]
  | cons g rest ih =>
    intro dest
    by_cases hcf : g ∈ cf
    · simp only [copyAllPass, if_pos hcf]
      simp [List.filter, hcf, (ih dest).1, (ih dest).2]
    · simp only [copyAllPass, if_neg hcf]
      simp [List.filter, hcf, (ih (setFile dest g now)).1,
        (ih (setFile dest g now)).2]

/-- Splitting a list by a Boolean predicate splits its length. -/
theorem length_filter_split (p : String → Bool) :
    ∀ l : List String,
      (l.filter p).length + (l.filter (fun f => !p f)).length = l.length := by
  intro l
  induction l with
  | nil => simp
  | cons g rest ih =>
    by_cases h : p g
    · simp [List.filter, h, ← ih]
      ring
    · simp [List.filter, h, ← ih]
      ring

theorem isEmpty_false_of_length_one (l : List String) (h : l.length = 1) :
    l.isEmpty = false := by
  cases l <;> simp at h ⊢

/-- C1: Freshness policy: in a failure-free sync pass of `syncToLocal`
(the loop `copyPass` is instantiated once per direction), a candidate file
is copied to the destination iff the destination file is absent or the
destination's modification time is strictly older than the source's; when
the two modification times are equal no copy occurs; and `syncToLocal`
counts exactly the copied files in `filesProcessed`. -/
theorem freshness_policy (src dest : Dir) (now : Int) (f : String)
    (hnd : (keys src).Nodup) :
    (f ∈ (copyPass src [] [] [] now (getConversationFiles src) dest).copied ↔
      (isConvFile f = true ∧ f ∈ keys src ∧
        (lookupD dest f = none ∨
          ∃ s d : Int, lookupD src f = some s ∧ lookupD dest f = some d ∧
            d < s))) ∧
    (∀ s : Int, lookupD src f = some s → lookupD dest f = some s →
      f ∉ (copyPass src [] [] [] now (getConversationFiles src) dest).copied) ∧
    ((syncToLocal ⟨now, some src, some dest, [], [], [], []⟩ false).1.filesProcessed =
      (copyPass src [] [] [] now (getConversationFiles src) dest).copied.length) := by
  have hndf : (getConversationFiles src).Nodup := hnd.filter _
  have hmain :
      f ∈ (copyPass src [] [] [] now (getConversationFiles src) dest).copied ↔
        (isConvFile f = true ∧ f ∈ keys src ∧
          (lookupD dest f = none ∨
            ∃ s d : Int, lookupD src f = some s ∧ lookupD dest f = some d ∧
              d < s)) := by
    by_cases hf : f ∈ getConversationFiles src
    · have hmem :=
        (copyPass_mem_spec src [] [] [] now (getConversationFiles src) dest
          hndf f hf).1
      have hfk : f ∈ keys src := (List.mem_filter.mp hf).1
      have hfc : isConvFile f = true := by
        simpa using (List.mem_filter.mp hf).2
      rw [hmem]
      simp only [List.not_mem_nil, not_false_iff, and_true]
      rw [shouldCopyFile_noFails]
      obtain ⟨s, hs⟩ :=
        Option.isSome_iff_exists.mp (lookupD_isSome_of_mem_keys src f hfk)
      cases hd : lookupD dest f with
      | none => simp [hs, hfc, hfk]
      | some d => simp [hs, hfc, hfk]
    · have hnc : f ∉ (copyPass src [] [] [] now
          (getConversationFiles src) dest).copied :=
        fun h => hf (copyPass_copied_subset src [] [] [] now _ dest f h)
      have hrhs : ¬ (isConvFile f = true ∧ f ∈ keys src ∧
          (lookupD dest f = none ∨
            ∃ s d : Int, lookupD src f = some s ∧ lookupD dest f = some d ∧
              d < s)) := by
        intro h
        exact hf (List.mem_filter.mpr ⟨h.2.1, by simp [h.1]⟩)
      exact iff_of_false hnc hrhs
  refine ⟨hmain, ?_, rfl⟩
  intro s hs hd hmem
  rcases (hmain.mp hmem).2.2 with h | ⟨s1, d1, hs1, hd1, hlt⟩
  · rw [hd] at h
    exact Option.noConfusion h
  · rw [hs] at hs1
    rw [hd] at hd1
    have hs2 : s1 = s := (Option.some.injEq _ _ ▸ hs1).symm ▸ rfl
    have hd2 : d1 = s := (Option.some.injEq _ _ ▸ hd1).symm ▸ rfl
    rw [Option.some.injEq] at hs1 hd1
    rw [← hs1, ← hd1] at hlt
    exact lt_irrefl s hlt

/-- Witness for C1 at a concrete input: with equal modification times the
file is not copied. -/
theorem freshness_policy_witness :
    "a.json" ∉ (copyPass [("a.json", 5)] [] [] [] 9
      (getConversationFiles [("a.json", 5)]) [("a.json", 5)]).copied :=
  (freshness_policy [("a.json", 5)] [("a.json", 5)] 9 "a.json"
    (by decide)).2.1 5 (by decide) (by decide)

/-- C2 counterexample: for a bidirectional pass the claim fails.  With the
global copy of f.jsonl older (mtime 3) than the local copy (mtime 5) at
time 10, the first call echo-copies the local file to global, stamping it
with the copy time 10; the second call then finds the global copy strictly
newer and copies it back, so its filesProcessed is 1, not 0, although no
file changed between the calls. -/
theorem syncToLocal_twice_bidirectional_counterexample :
    ((syncToLocal (syncToLocal
        ⟨10, some [("f.jsonl", 3)], some [("f.jsonl", 5)], [], [], [], []⟩
        true).2 true).1.filesProcessed = 1) ∧
    ¬ ((syncToLocal (syncToLocal
        ⟨10, some [("f.jsonl", 3)], some [("f.jsonl", 5)], [], [], [], []⟩
        true).2 true).1.filesProcessed = 0) := by
  constructor <;> decide

/-- C2 amended: idempotence holds for non-bidirectional passes.  For every
project whose directories are free of stat and copy failures and whose
global files are not from the future, running `syncToLocal` (without the
bidirectional option) twice in succession with no intervening file changes
yields filesProcessed = 0 on the second call, whenever the second call
runs. -/
theorem syncToLocal_idempotent_nonbidirectional (w : World) (g : Dir)
    (hg : w.globalDir = some g)
    (hnd : (keys g).Nodup)
    (hsf : w.statFailsGlobal = []) (hsl : w.statFailsLocal = [])
    (hcf : w.copyToLocalFails = [])
    (hwf : ∀ p ∈ g, p.2 ≤ w.now)
    (t2 : Int) :
    (syncToLocal { (syncToLocal w false).2 with now := t2 }
      false).1.filesProcessed = 0 := by
  obtain ⟨now1, gd, ld, sfg, sfl, cfl, cfg⟩ := w
  simp only at hg hsf hsl hcf hwf
  subst hg hsf hsl hcf
  have hndf : (getConversationFiles g).Nodup := hnd.filter _
  have hall : ∀ (l : Dir) (f : String), f ∈ getConversationFiles g →
      shouldCopyFile g
        (copyPass g [] [] [] now1 (getConversationFiles g) l).dest [] [] f =
        false := by
    intro l f hf
    have hfk : f ∈ keys g := (List.mem_filter.mp hf).1
    obtain ⟨s, hs⟩ :=
      Option.isSome_iff_exists.mp (lookupD_isSome_of_mem_keys g f hfk)
    have hsnow : s ≤ now1 := hwf (f, s) (mem_of_lookupD_eq_some g f s hs)
    obtain ⟨m, hm, hsm⟩ :=
      copyPass_lookup_ge g now1 (getConversationFiles g) l hndf f hf s hs
        hsnow
    rw [shouldCopyFile_noFails, hm, hs]
    simp [not_lt.mpr hsm]
  cases ld with
  | none =>
    have hfin := copyPass_no_copy g [] [] [] t2 (getConversationFiles g)
      (copyPass g [] [] [] now1 (getConversationFiles g) []).dest
      (fun f hf => hall [] f hf)
    show (copyPass g [] [] [] t2 (getConversationFiles g)
      (copyPass g [] [] [] now1 (getConversationFiles g) []).dest).copied.length = 0
    rw [hfin]
    rfl
  | some l =>
    have hfin := copyPass_no_copy g [] [] [] t2 (getConversationFiles g)
      (copyPass g [] [] [] now1 (getConversationFiles g) l).dest
      (fun f hf => hall l f hf)
    show (copyPass g [] [] [] t2 (getConversationFiles g)
      (copyPass g [] [] [] now1 (getConversationFiles g) l).dest).copied.length = 0
    rw [hfin]
    rfl

/-- Witness for the amended C2 at a concrete input. -/
theorem syncToLocal_idempotent_nonbidirectional_witness :
    (syncToLocal { (syncToLocal
        ⟨10, some [("a.json", 3)], some ([] : Dir), [], [], [], []⟩
        false).2 with now := 20 } false).1.filesProcessed = 0 :=
  syncToLocal_idempotent_nonbidirectional
    ⟨10, some [("a.json", 3)], some ([] : Dir), [], [], [], []⟩
    [("a.json", 3)] rfl (by decide) rfl rfl rfl (by decide) 20

/-- C3: `syncToGlobal` on a never-initialized project returns failure with
zero files processed and exactly the single not-initialized error, and the
filesystem world is returned unchanged (no directory created, no file
copied). -/
theorem syncToGlobal_uninitialized (w : World) (h : w.localDir = none) :
    syncToGlobal w =
      ({ success := false, filesProcessed := 0,
         errors := ["Local storage not initialized"], duration := 0 }, w) := by
  rcases w with ⟨n, gd, ld, a, b, c, d⟩
  simp only at h
  subst h
  rfl

/-- Witness for C3 at a concrete input. -/
theorem syncToGlobal_uninitialized_witness :
    syncToGlobal ⟨0, none, none, [], [], [], []⟩ =
      ({ success := false, filesProcessed := 0,
         errors := ["Local storage not initialized"], duration := 0 },
       ⟨0, none, none, [], [], [], []⟩) :=
  syncToGlobal_uninitialized ⟨0, none, none, [], [], [], []⟩ rfl

/-- C4: Partial-failure isolation, for `syncToLocal` into a freshly
initialized (empty) local store and for `syncToGlobal`: when exactly one of
the N candidate files' copy throws, the result reports N-1 files processed,
exactly one recorded error, and success = false; the model's totality
mirrors the per-file try/catch, so no exception escapes either call. -/
theorem partial_failure_isolation (w v : World) (g l : Dir)
    (hg : w.globalDir = some g) (hl : w.localDir = some [])
    (hnd : (keys g).Nodup)
    (hone : ((getConversationFiles g).filter
        (fun f => decide (f ∈ w.copyToLocalFails))).length = 1)
    (hvl : v.localDir = some l)
    (honeG : ((getConversationFiles l).filter
        (fun f => decide (f ∈ v.copyToGlobalFails))).length = 1) :
    ((syncToLocal w false).1.filesProcessed =
        (getConversationFiles g).length - 1 ∧
      (syncToLocal w false).1.errors.length = 1 ∧
      (syncToLocal w false).1.success = false) ∧
    ((syncToGlobal v).1.filesProcessed =
        (getConversationFiles l).length - 1 ∧
      (syncToGlobal v).1.errors.length = 1 ∧
      (syncToGlobal v).1.success = false) := by
  constructor
  · obtain ⟨now1, gd, ld, sfg, sfl, cfl, cfg⟩ := w
    simp only at hg hl hone
    subst hg hl
    have hndf : (getConversationFiles g).Nodup := hnd.filter _
    have habs : ∀ f ∈ getConversationFiles g, lookupD ([] : Dir) f = none := by
      intro f _
      rfl
    have hspec := copyPass_all_absent g sfg sfl cfl now1
      (getConversationFiles g) [] hndf habs
    have hlen := length_filter_split (fun f => decide (f ∈ cfl))
      (getConversationFiles g)
    simp only [] at hlen
    have hred : (syncToLocal ⟨now1, some g, some [], sfg, sfl, cfl, cfg⟩
        false).1 =
        { success :=
            (copyPass g sfg sfl cfl now1 (getConversationFiles g) []).errs.isEmpty,
          filesProcessed :=
            (copyPass g sfg sfl cfl now1 (getConversationFiles g) []).copied.length,
          errors :=
            (copyPass g sfg sfl cfl now1 (getConversationFiles g) []).errs,
          duration := 0 } := rfl
    rw [hred]
    simp only [hspec.1, hspec.2]
    refine ⟨?_, ?_, ?_⟩
    · omega
    · exact hone
    · rw [isEmpty_false_of_length_one _ hone]
  · obtain ⟨now1, gd, ld, sfg, sfl, cfl, cfg⟩ := v
    simp only at hvl honeG
    subst hvl
    have hlen := length_filter_split (fun f => decide (f ∈ cfg))
      (getConversationFiles l)
    simp only [] at hlen
    cases gd with
    | none =>
      have hspec := copyAllPass_spec cfg now1 (getConversationFiles l) []
      have hred : (syncToGlobal ⟨now1, none, some l, sfg, sfl, cfl, cfg⟩).1 =
          { success :=
              (copyAllPass cfg now1 (getConversationFiles l) []).errs.isEmpty,
            filesProcessed :=
              (copyAllPass cfg now1 (getConversationFiles l) []).copied.length,
            errors := (copyAllPass cfg now1 (getConversationFiles l) []).errs,
            duration := 0 } := rfl
      rw [hred]
      simp only [hspec.1, hspec.2]
      refine ⟨?_, ?_, ?_⟩
      · omega
      · exact honeG
      · rw [isEmpty_false_of_length_one _ honeG]
    | some g0 =>
      have hspec := copyAllPass_spec cfg now1 (getConversationFiles l) g0
      have hred : (syncToGlobal ⟨now1, some g0, some l, sfg, sfl, cfl, cfg⟩).1 =
          { success :=
              (copyAllPass cfg now1 (getConversationFiles l) g0).errs.isEmpty,
            filesProcessed :=
              (copyAllPass cfg now1 (getConversationFiles l) g0).copied.length,
            errors := (copyAllPass cfg now1 (getConversationFiles l) g0).errs,
            duration := 0 } := rfl
      rw [hred]
      simp only [hspec.1, hspec.2]
      refine ⟨?_, ?_, ?_⟩
      · omega
      · exact honeG
      · rw [isEmpty_false_of_length_one _ honeG]

/-- Witness for C4 at a concrete input: two candidates on each side, one
failing copy each. -/
theorem partial_failure_isolation_witness :
    ((syncToLocal ⟨0, some [("a.json", 1), ("b.json", 2)], some [],
        [], [], ["a.json"], []⟩ false).1.filesProcessed =
        (getConversationFiles [("a.json", 1), ("b.json", 2)]).length - 1 ∧
      (syncToLocal ⟨0, some [("a.json", 1), ("b.json", 2)], some [],
        [], [], ["a.json"], []⟩ false).1.errors.length = 1 ∧
      (syncToLocal ⟨0, some [("a.json", 1), ("b.json", 2)], some [],
        [], [], ["a.json"], []⟩ false).1.success = false) ∧
    ((syncToGlobal ⟨0, none, some [("c.json", 1), ("d.json", 2)],
        [], [], [], ["c.json"]⟩).1.filesProcessed =
        (getConversationFiles [("c.json", 1), ("d.json", 2)]).length - 1 ∧
      (syncToGlobal ⟨0, none, some [("c.json", 1), ("d.json", 2)],
        [], [], [], ["c.json"]⟩).1.errors.length = 1 ∧
      (syncToGlobal ⟨0, none, some [("c.json", 1), ("d.json", 2)],
        [], [], [], ["c.json"]⟩).1.success = false) :=
  partial_failure_isolation
    ⟨0, some [("a.json", 1), ("b.json", 2)], some [], [], [], ["a.json"], []⟩
    ⟨0, none, some [("c.json", 1), ("d.json", 2)], [], [], [], ["c.json"]⟩
    [("a.json", 1), ("b.json", 2)] [("c.json", 1), ("d.json", 2)]
    rfl rfl (by decide) (by decide) rfl (by decide)

/-- Triggers all falling within the cooldown of the recorded last sync are
all dropped: no sync runs and the daemon state is unchanged. -/
theorem runTriggers_all_dropped (root : String) (lastSync : Int) :
    ∀ (ts : List (Int × SyncDirection)) (w : World),
      (∀ p ∈ ts, p.1 - lastSync < 5000) →
      runTriggers root [(root, lastSync)] w ts =
        ([(root, lastSync)], w, 0) := by
  intro ts
  induction ts with
  | nil => intro w _; simp [runTriggers]
  | cons p rest ih =>
    intro w h
    obtain ⟨t, d⟩ := p
    have ht : t - lastSync < 5000 := h (t, d) (by simp)
    have hlook : lookupD [(root, lastSync)] root = some lastSync := by
      simp [lookupD]
    simp only [runTriggers, syncProject, hlook, if_pos ht]
    rw [ih w (fun q hq => h q (List.mem_cons_of_mem _ hq))]
    rfl

/-- Within any half-open window of length 5000 ms, at most one sync pass
completes, whatever the recorded last sync was. -/
theorem runTriggers_window_le_one (root : String) (lo : Int) :
    ∀ (ts : List (Int × SyncDirection)) (lastSync : Int) (w : World),
      (∀ p ∈ ts, lo ≤ p.1 ∧ p.1 < lo + 5000) →
      (runTriggers root [(root, lastSync)] w ts).2.2 ≤ 1 := by
  intro ts
  induction ts with
  | nil => intro lastSync w _; simp [runTriggers]
  | cons p rest ih =>
    intro lastSync w h
    obtain ⟨t, d⟩ := p
    have hlook : lookupD [(root, lastSync)] root = some lastSync := by
      simp [lookupD]
    by_cases hdrop : t - lastSync < 5000
    · simp only [runTriggers, syncProject, hlook, if_pos hdrop]
      have := ih lastSync w (fun q hq => h q (List.mem_cons_of_mem _ hq))
      simpa using this
    · simp only [runTriggers, syncProject, hlook, if_neg hdrop]
      have hset : setFile [(root, lastSync)] root t = [(root, t)] := by
        simp [setFile]
      rw [hset]
      have hall : ∀ q ∈ rest, q.1 - t < 5000 := by
        intro q hq
        have h1 := (h q (List.mem_cons_of_mem _ hq)).2
        have h2 := (h (t, d) (by simp)).1
        omega
      rw [runTriggers_all_dropped root t rest (runDirection w d) hall]
      simp

/-- Characterization of a negative freshness answer under failure
injection: the file is skipped only when the destination exists, both stats
succeed, and the source is not strictly newer. -/
theorem shouldCopyFile_false_iff (src dst : Dir) (sf df : List String)
    (f : String) :
    shouldCopyFile src dst sf df f = false ↔
      ∃ s d : Int, (lookupD dst f).isSome ∧ statM src sf f = some s ∧
        statM dst df f = some d ∧ ¬ d < s := by
  unfold shouldCopyFile pathExistsD
  rcases hdex : lookupD dst f with _ | d0 <;>
    rcases hsrc : statM src sf f with _ | s <;>
    rcases hdst : statM dst df f with _ | d <;>
    simp [not_lt]

/-- C5 (code bug): the initial bidirectional sync of `monitorProject` never
runs.  For every project root not yet monitored, `syncProject` is called
before the project is inserted into the monitored table, so its
not-monitored guard returns immediately: the project is registered, the
filesystem world is untouched, and no sync pass is performed — contradicting
the comment "Initial bidirectional sync" and the logged intent of the
source. -/
theorem monitorProject_initial_sync_skipped (table : Dir) (w : World)
    (root : String) (now : Int) (h : lookupD table root = none) :
    monitorProject table w root now = (setFile table root now, w, false) := by
  simp [monitorProject, syncProject, h]

/-- Witness for C5 at a concrete input: a fresh daemon monitoring its first
project performs no initial sync. -/
theorem monitorProject_initial_sync_skipped_witness :
    monitorProject [] ⟨0, none, none, [], [], [], []⟩ "/home/u/proj" 0 =
      (setFile [] "/home/u/proj" 0, ⟨0, none, none, [], [], [], []⟩, false) :=
  monitorProject_initial_sync_skipped [] ⟨0, none, none, [], [], [], []⟩
    "/home/u/proj" 0 rfl

/-- C6: daemon rate limiting.  A triggered sync of any direction is dropped
— table and world unchanged, no sync pass — whenever less than 5000 ms has
elapsed since the recorded last completed sync; consequently at most one
sync pass completes per cooldown window, so firing two or more trigger
events within one window yields strictly fewer completed sync passes than
events. -/
theorem daemon_rate_limiting :
    (∀ (table : Dir) (w : World) (root : String) (d : SyncDirection)
        (now lastSync : Int), lookupD table root = some lastSync →
        now - lastSync < 5000 →
        syncProject table w root d now = (table, w, false)) ∧
    (∀ (root : String) (lastSync : Int) (w : World)
        (ts : List (Int × SyncDirection)) (lo : Int),
        (∀ p ∈ ts, lo ≤ p.1 ∧ p.1 < lo + 5000) → 2 ≤ ts.length →
        (runTriggers root [(root, lastSync)] w ts).2.2 < ts.length) := by
  constructor
  · intro table w root d now lastSync hlook hlt
    simp [syncProject, hlook, hlt]
  · intro root lastSync w ts lo hwin hlen
    have := runTriggers_window_le_one root lo ts lastSync w hwin
    omega

/-- Witness for C6 at a concrete input: a trigger 1000 ms after the last
sync is dropped, and three triggers inside one 5000 ms window complete
strictly fewer than three sync passes. -/
theorem daemon_rate_limiting_witness :
    (syncProject [("/p", 0)] ⟨0, none, none, [], [], [], []⟩ "/p"
        SyncDirection.toGlobal 1000 =
      ([("/p", 0)], ⟨0, none, none, [], [], [], []⟩, false)) ∧
    ((runTriggers "/p" [("/p", -10000)] ⟨0, none, none, [], [], [], []⟩
        [(0, SyncDirection.toGlobal), (1000, SyncDirection.toLocal),
          (2000, SyncDirection.bidirectional)]).2.2 < 3) :=
  ⟨daemon_rate_limiting.1 [("/p", 0)] ⟨0, none, none, [], [], [], []⟩ "/p"
      SyncDirection.toGlobal 1000 0 (by decide) (by decide),
    daemon_rate_limiting.2 "/p" (-10000) ⟨0, none, none, [], [], [], []⟩
      [(0, SyncDirection.toGlobal), (1000, SyncDirection.toLocal),
        (2000, SyncDirection.bidirectional)] 0 (by decide) (by decide)⟩

/-- C7 counterexample: a local-side change event in bidirectional mode is
forwarded to no callback although callback 0 is registered, so not every
filesystem change notification reaches every registered callback. -/
theorem watcher_local_event_not_forwarded :
    (handleLocalFileEvent [0] WEventType.add "f.jsonl" 7).1 = [] ∧
    ([0] : List Nat) ≠ [] := by
  constructor
  · rfl
  · simp

/-- C7 amended: global-side events are forwarded verbatim (type, path,
timestamp) to every registered callback regardless of the membership check
or of whether a copy occurs; local-side events (bidirectional mode) are
forwarded to no callback. -/
theorem watcher_event_forwarding (callbacks : List Nat) (belongs : Bool)
    (t : WEventType) (path : String) (ts : Int) :
    ((handleFileEvent callbacks belongs t path ts).1 =
      callbacks.map (fun c => (c, (⟨t, path, ts⟩ : WatcherEvent)))) ∧
    ((handleLocalFileEvent callbacks t path ts).1 = []) :=
  ⟨rfl, rfl⟩

/-- C8: `getGlobalProjectPath g p` is g joined with `projects` joined with
p with every path separator replaced by a dash; the encoding is lossy — the
distinct absolute paths /a/b and /a-b share one encoding — and the collision
raises no error: both arguments yield the very same global path. -/
theorem path_encoding_lossy :
    (∀ g p : String, getGlobalProjectPath g p =
      g ++ "/" ++ "projects" ++ "/" ++ encodeProjectPath p) ∧
    (∀ p : String, (encodeProjectPath p).toList =
      p.toList.map (fun c => if c = '/' then '-' else c)) ∧
    (encodeProjectPath "/a/b" = encodeProjectPath "/a-b" ∧
      ("/a/b" : String) ≠ "/a-b") ∧
    (∀ g : String, getGlobalProjectPath g "/a/b" =
      getGlobalProjectPath g "/a-b") := by
  refine ⟨fun g p => rfl, fun p => rfl, ⟨by decide, by decide⟩, fun g => ?_⟩
  show pathJoin _ (encodeProjectPath "/a/b") = pathJoin _ (encodeProjectPath "/a-b")
  norm_num [show encodeProjectPath "/a/b" = encodeProjectPath "/a-b" from by decide]

/-- C9: frame property of `cleanLocalStorage`: the history subdirectory is
always removed; with preserveConfig set, every other file of the local store
and the store directory itself are left unchanged; without preserveConfig
the whole local store directory is removed. -/
theorem cleanLocalStorage_frame (s : LocalStore) (pc : Bool)
    (hwf : s.present = false → s.history = none ∧ s.others = []) :
    (cleanLocalStorage s pc).history = none ∧
    (pc = true → (cleanLocalStorage s pc).others = s.others ∧
      (cleanLocalStorage s pc).present = s.present) ∧
    (pc = false → (cleanLocalStorage s pc).present = false ∧
      (cleanLocalStorage s pc).others = []) := by
  obtain ⟨pr, hist, oth⟩ := s
  simp only at hwf
  cases pc <;> cases pr <;> cases hist <;>
    simp_all [cleanLocalStorage]

/-- Witness for C9 at a concrete input: cleaning with preserveConfig
removes history and keeps README.md. -/
theorem cleanLocalStorage_frame_witness :
    (cleanLocalStorage ⟨true, some [("h.json", 1)], [("README.md", 0)]⟩
      true).history = none ∧
    (cleanLocalStorage ⟨true, some [("h.json", 1)], [("README.md", 0)]⟩
      true).others = [("README.md", 0)] :=
  ⟨(cleanLocalStorage_frame ⟨true, some [("h.json", 1)], [("README.md", 0)]⟩
      true (by simp)).1,
    ((cleanLocalStorage_frame ⟨true, some [("h.json", 1)], [("README.md", 0)]⟩
      true (by simp)).2.1 rfl).1⟩

/-- C10: default-to-copy on stat failure: whenever the freshness check
cannot read a modification time (the stat of source or destination throws,
injected through the failure lists), `shouldCopyFile` answers true, so the
sync pass attempts the copy (the file lands in the copied or error list);
a file is skipped only when both stats succeed and the source is not
strictly newer. -/
theorem default_copy_on_stat_failure (src dst : Dir)
    (sf df cf : List String) (f : String) (now : Int)
    (files : List String) (hnd : files.Nodup) (hf : f ∈ files) :
    ((lookupD dst f).isSome →
      statM src sf f = none ∨ statM dst df f = none →
      shouldCopyFile src dst sf df f = true) ∧
    (shouldCopyFile src dst sf df f = false ↔
      ∃ s d : Int, (lookupD dst f).isSome ∧ statM src sf f = some s ∧
        statM dst df f = some d ∧ ¬ d < s) ∧
    (shouldCopyFile src dst sf df f = true →
      f ∈ (copyPass src sf df cf now files dst).copied ∨
        f ∈ (copyPass src sf df cf now files dst).errs) := by
  refine ⟨?_, ?_, ?_⟩
  · intro hex hnone
    simp only [shouldCopyFile, pathExistsD, hex, Bool.not_true, if_false]
    cases hsrc : statM src sf f with
    | none => rfl
    | some s =>
      cases hdst : statM dst df f with
      | none => rfl
      | some d =>
        rcases hnone with h | h
        · rw [hsrc] at h
          exact Option.noConfusion h
        · rw [hdst] at h
          exact Option.noConfusion h
  · exact shouldCopyFile_false_iff src dst sf df f
  · intro hsc
    have hspec := copyPass_mem_spec src sf df cf now files dst hnd f hf
    by_cases hcf : f ∈ cf
    · exact Or.inr (hspec.2.mpr ⟨hsc, hcf⟩)
    · exact Or.inl (hspec.1.mpr ⟨hsc, hcf⟩)

/-- Witness for C10 at a concrete input: the source stat of a.json throws
while the destination copy is newer, yet the copy is attempted. -/
theorem default_copy_on_stat_failure_witness :
    shouldCopyFile [("a.json", 1)] [("a.json", 9)] ["a.json"] []
      "a.json" = true ∧
    ("a.json" ∈ (copyPass [("a.json", 1)] ["a.json"] [] [] 0 ["a.json"]
        [("a.json", 9)]).copied ∨
      "a.json" ∈ (copyPass [("a.json", 1)] ["a.json"] [] [] 0 ["a.json"]
        [("a.json", 9)]).errs) := by
  have h := default_copy_on_stat_failure [("a.json", 1)] [("a.json", 9)]
    ["a.json"] [] [] "a.json" 0 ["a.json"] (by decide) (by decide)
  have h1 := h.1 (by decide) (Or.inl (by decide))
  exact ⟨h1, h.2.2 h1⟩

end ClaudeSync
